import Mathlib

/-!
Verification development for the plaud-extractor synchronization and
integrity subsystem.  The TypeScript sources under `src/` are shallowly
embedded as executable Lean definitions: machine arithmetic is modelled by
`Nat`/`Int` with explicit reduction modulo 2^32 where the source relies on
32-bit wraparound (SHA-256), fallible operations return `Except`, and the
event-loop concurrency of the bounded work queue is modelled by an explicit
small-step scheduler driven by an oracle that decides which in-flight task
completes next.
-/

namespace Plaud

/-! ## Data model (src/client/types.ts, src/sync/types.ts)

`transcriptStatus` is the zod enum from `PlaudRecordingSchema`. -/

inductive TStatus where
  | pending | processing | completed | failed
deriving DecidableEq, Repr

def TStatus.str : TStatus → String
  | .pending => "pending"
  | .processing => "processing"
  | .completed => "completed"
  | .failed => "failed"

/-- `PlaudRecording` (src/client/types.ts).  The opaque `_raw` payload is
not modelled; every named schema field is. -/
structure PlaudRecording where
  id : String
  title : Option String
  duration : Int
  recordedAt : String
  createdAt : String
  updatedAt : String
  fileSize : Option Nat
  mimeType : String
  hasTranscript : Bool
  transcriptStatus : Option TStatus
  language : Option String
  deviceId : Option String
  tags : Option (List String)
  folderId : Option String
  summary : Option String
deriving DecidableEq, Repr

/-- `RecordingState` (src/sync/types.ts). -/
structure RecordingState where
  recordedAt : String
  contentHash : Option String
  downloadedAt : Option String
  hasAudio : Bool
  hasTranscript : Bool
  verified : Bool
  verifiedAt : Option String
deriving DecidableEq, Repr

/-- `SyncState` (src/sync/types.ts); the `recordings` record is modelled as
an association list with unique keys. -/
structure SyncState where
  lastSuccessfulSyncAt : Option String
  lastAttemptAt : Option String
  recordings : List (String × RecordingState)
deriving DecidableEq, Repr

/-! ## SHA-256 (model of the node:crypto sha256 primitive)

Full implementation over `Nat` bytes with explicit `% 2^32` wraparound,
validated below against the standard test vector for "abc". -/

def w32 (n : Nat) : Nat := n % 4294967296

def rotr (n x : Nat) : Nat := w32 ((x >>> n) ||| (x <<< (32 - n)))

/-- The 64 SHA-256 round constants, written in decimal. -/
def sha256K : List Nat :=
  [1116352408, 1899447441, 3049323471, 3921009573, 961987163,
   1508970993, 2453635748, 2870763221, 3624381080, 310598401,
   607225278, 1426881987, 1925078388, 2162078206, 2614888103,
   3248222580, 3835390401, 4022224774, 264347078, 604807628,
   770255983, 1249150122, 1555081692, 1996064986, 2554220882,
   2821834349, 2952996808, 3210313671, 3336571891, 3584528711,
   113926993, 338241895, 666307205, 773529912, 1294757372,
   1396182291, 1695183700, 1986661051, 2177026350, 2456956037,
   2730485921, 2820302411, 3259730800, 3345764771, 3516065817,
   3600352804, 4094571909, 275423344, 430227734, 506948616,
   659060556, 883997877, 958139571, 1322822218, 1537002063,
   1747873779, 1955562222, 2024104815, 2227730452, 2361852424,
   2428436474, 2756734187, 3204031479, 3329325298]

/-- The eight SHA-256 initial hash words, written in decimal. -/
def sha256H0 : List Nat :=
  [1779033703, 3144134277, 1013904242, 2773480762,
   1359893119, 2600822924, 528734635, 1541459225]

/-- Big-endian bytes of `n`, `k` bytes wide. -/
def bytesBE : Nat → Nat → List Nat
  | 0, _ => []
  | k + 1, n => bytesBE k (n / 256) ++ [n % 256]

/-- SHA-256 padding: append 0x80, zero bytes, and the 64-bit bit length. -/
def padMessage (msg : List Nat) : List Nat :=
  let z := (119 - msg.length % 64) % 64
  msg ++ [128] ++ List.replicate z 0 ++ bytesBE 8 (8 * msg.length)

/-- Fold the compression function over successive 64-byte blocks.  The
fuel argument (instantiated with the padded length, an overapproximation
of the block count) makes the recursion structural, so the definition
reduces inside the kernel. -/
def sha256Loop (compress : List Nat → List Nat → List Nat) :
    Nat → List Nat → List Nat → List Nat
  | 0, h, _ => h
  | _ + 1, h, [] => h
  | fuel + 1, h, l => sha256Loop compress fuel (compress h (l.take 64)) (l.drop 64)

/-- Combine bytes into big-endian 32-bit words. -/
def toWordsBE : List Nat → List Nat
  | b0 :: b1 :: b2 :: b3 :: rest =>
      (((b0 * 256 + b1) * 256 + b2) * 256 + b3) :: toWordsBE rest
  | _ => []

/-- Message-schedule extension from 16 to 64 words. -/
def extendW (w0 : List Nat) : List Nat :=
  (List.range 48).foldl (fun w i =>
    let g := fun j => w.getD j 0
    let s0 := rotr 7 (g (i + 1)) ^^^ rotr 18 (g (i + 1)) ^^^ (g (i + 1) >>> 3)
    let s1 := rotr 17 (g (i + 14)) ^^^ rotr 19 (g (i + 14)) ^^^ (g (i + 14) >>> 10)
    w ++ [w32 (g i + s0 + g (i + 9) + s1)]) w0

structure Hash8 where
  a : Nat
  b : Nat
  c : Nat
  d : Nat
  e : Nat
  f : Nat
  g : Nat
  h : Nat

def sha256Round (w : List Nat) (s : Hash8) (i : Nat) : Hash8 :=
  let s1 := rotr 6 s.e ^^^ rotr 11 s.e ^^^ rotr 25 s.e
  let ch := (s.e &&& s.f) ^^^ ((s.e ^^^ 4294967295) &&& s.g)
  let t1 := w32 (s.h + s1 + ch + sha256K.getD i 0 + w.getD i 0)
  let s0 := rotr 2 s.a ^^^ rotr 13 s.a ^^^ rotr 22 s.a
  let maj := (s.a &&& s.b) ^^^ (s.a &&& s.c) ^^^ (s.b &&& s.c)
  let t2 := w32 (s0 + maj)
  ⟨w32 (t1 + t2), s.a, s.b, s.c, w32 (s.d + t1), s.e, s.f, s.g⟩

def compressBlock (h : List Nat) (block : List Nat) : List Nat :=
  let w := extendW (toWordsBE block)
  let init : Hash8 :=
    ⟨h.getD 0 0, h.getD 1 0, h.getD 2 0, h.getD 3 0,
     h.getD 4 0, h.getD 5 0, h.getD 6 0, h.getD 7 0⟩
  let s := (List.range 64).foldl (sha256Round w) init
  [w32 (h.getD 0 0 + s.a), w32 (h.getD 1 0 + s.b), w32 (h.getD 2 0 + s.c),
   w32 (h.getD 3 0 + s.d), w32 (h.getD 4 0 + s.e), w32 (h.getD 5 0 + s.f),
   w32 (h.getD 6 0 + s.g), w32 (h.getD 7 0 + s.h)]

def sha256Bytes (msg : List Nat) : List Nat :=
  let padded := padMessage msg
  let hs := sha256Loop compressBlock padded.length sha256H0 padded
  hs.foldr (fun w acc => bytesBE 4 w ++ acc) []

def hexDigit (n : Nat) : Char :=
  if n < 10 then Char.ofNat (48 + n) else Char.ofNat (87 + n)

def hexByte (b : Nat) : List Char := [hexDigit (b / 16), hexDigit (b % 16)]

def toHex (bytes : List Nat) : String :=
  ⟨bytes.foldr (fun b acc => hexByte b ++ acc) []⟩

def sha256Hex (msg : List Nat) : String := toHex (sha256Bytes msg)

/-- UTF-8 encoding of one character. -/
def utf8Encode (c : Char) : List Nat :=
  let n := c.toNat
  if n < 128 then [n]
  else if n < 2048 then [192 + n / 64, 128 + n % 64]
  else if n < 65536 then [224 + n / 4096, 128 + (n / 64) % 64, 128 + n % 64]
  else [240 + n / 262144, 128 + (n / 4096) % 64, 128 + (n / 64) % 64, 128 + n % 64]

def utf8Bytes (s : String) : List Nat :=
  s.data.foldr (fun c acc => utf8Encode c ++ acc) []

/-! ## Content fingerprint (IncrementalTracker.computeContentHash)

The source builds `JSON.stringify` of an object literal listing exactly the
six fields id, updatedAt, hasTranscript, transcriptStatus, duration, title
in that order (undefined values are omitted by JSON.stringify), hashes the
string with sha256 and keeps the first 16 hex characters. -/

def jsonEscapeChar (c : Char) : List Char :=
  if c = Char.ofNat 34 then [Char.ofNat 92, Char.ofNat 34]
  else if c = Char.ofNat 92 then [Char.ofNat 92, Char.ofNat 92]
  else if c.toNat = 8 then [Char.ofNat 92, 'b']
  else if c.toNat = 9 then [Char.ofNat 92, 't']
  else if c.toNat = 10 then [Char.ofNat 92, 'n']
  else if c.toNat = 12 then [Char.ofNat 92, 'f']
  else if c.toNat = 13 then [Char.ofNat 92, 'r']
  else if c.toNat < 32 then Char.ofNat 92 :: 'u' :: '0' :: '0' :: hexByte c.toNat
  else [c]

def jsonString (s : String) : String :=
  ⟨Char.ofNat 34 :: s.data.foldr (fun c acc => jsonEscapeChar c ++ acc) [Char.ofNat 34]⟩

/-- The JSON key string hashed by `computeContentHash`. -/
def contentKey (r : PlaudRecording) : String :=
  "\x7b\"id\":" ++ jsonString r.id
    ++ ",\"updatedAt\":" ++ jsonString r.updatedAt
    ++ ",\"hasTranscript\":" ++ (if r.hasTranscript then "true" else "false")
    ++ (match r.transcriptStatus with
        | none => ""
        | some s => ",\"transcriptStatus\":" ++ jsonString s.str)
    ++ ",\"duration\":" ++ toString r.duration
    ++ (match r.title with
        | none => ""
        | some t => ",\"title\":" ++ jsonString t)
    ++ "\x7d"

/-- `IncrementalTracker.computeContentHash` (src/sync/incremental.ts:65). -/
def computeContentHash (r : PlaudRecording) : String :=
  (sha256Hex (utf8Bytes (contentKey r))).take 16

/-! ## Incremental tracker operations (src/sync/incremental.ts) -/

/-- Lookup in the `recordings` record. -/
def lookupRec (st : SyncState) (id : String) : Option RecordingState :=
  st.recordings.lookup id

/-- `IncrementalTracker.needsDownload` (src/sync/incremental.ts:51). -/
def needsDownload (st : SyncState) (r : PlaudRecording) : Bool :=
  match lookupRec st r.id with
  | none => true
  | some existing =>
    if existing.contentHash ≠ some (computeContentHash r) then true
    else if !existing.hasTranscript && r.hasTranscript then true
    else if existing.downloadedAt.isNone then true
    else false

/-- Keyed insert-or-replace on the association-list model of a record. -/
def upsert : List (String × RecordingState) → String → RecordingState →
    List (String × RecordingState)
  | [], k, v => [(k, v)]
  | (k0, v0) :: rest, k, v =>
      if k0 = k then (k, v) :: rest else (k0, v0) :: upsert rest k v

/-- `IncrementalTracker.markComplete` (src/sync/incremental.ts:77); `now`
models `new Date().toISOString()`. -/
def markComplete (st : SyncState) (recordingId recordedAt : String)
    (hasAudio hasTranscript : Bool) (contentHash : String) (now : String) :
    SyncState :=
  let fresh : RecordingState :=
    ⟨recordedAt, some contentHash, some now, hasAudio, hasTranscript, false, none⟩
  { st with
      recordings := upsert st.recordings recordingId fresh }

/-- `IncrementalTracker.markSuccessfulSync` (src/sync/incremental.ts:42). -/
def markSuccessfulSync (st : SyncState) (now : String) : SyncState :=
  { st with
      lastSuccessfulSyncAt := some now }

/-- The `lastAttemptAt` update performed by `IncrementalTracker.persist`. -/
def persistStamp (st : SyncState) (now : String) : SyncState :=
  { st with
      lastAttemptAt := some now }

set_option maxRecDepth 10000 in
/-- Standard SHA-256 test vector, anchoring the hash model. -/
theorem sha256_test_vector :
    sha256Hex (utf8Bytes "abc") =
      "ba7816bf8f01cfea414140de5dae2223b00361a396177a9cb410ff61f20015ad" := by
  decide

/-- C1: needsDownload is true exactly when no state is stored, the stored
hash differs from the freshly computed one, the item reports a transcript
the stored state lacks, or no downloadedAt is recorded. -/
theorem needsDownload_iff (st : SyncState) (r : PlaudRecording) :
    needsDownload st r = true ↔
      (lookupRec st r.id = none ∨
       ∃ s, lookupRec st r.id = some s ∧
         (s.contentHash ≠ some (computeContentHash r) ∨
          (r.hasTranscript = true ∧ s.hasTranscript = false) ∨
          s.downloadedAt = none)) := by
  unfold needsDownload
  cases h : lookupRec st r.id with
  | none => simp
  | some s =>
    constructor
    · intro ht
      refine Or.inr ⟨s, rfl, ?_⟩
      dsimp only at ht
      split_ifs at ht with h1 h2 h3
      · exact Or.inl h1
      · have hb : s.hasTranscript = false ∧ r.hasTranscript = true := by
          simpa using h2
        exact Or.inr (Or.inl ⟨hb.2, hb.1⟩)
      · exact Or.inr (Or.inr (Option.isNone_iff_eq_none.mp h3))
    · rintro (hn | ⟨s', heq, hcase⟩)
      · exact absurd hn (by simp)
      · injection heq with heq
        subst heq
        dsimp only
        split_ifs with h1 h2 h3
        · rfl
        · rfl
        · rfl
        · rcases hcase with hc | ⟨ha, hb⟩ | hd
          · exact absurd hc h1
          · exact absurd (by simp [ha, hb]) h2
          · exact absurd (by simp [hd]) h3

/-- C6: the content fingerprint depends on exactly the six designated
fields; recordings agreeing on them hash identically whatever their other
fields hold. -/
theorem computeContentHash_field_subset (r1 r2 : PlaudRecording)
    (hid : r1.id = r2.id) (hup : r1.updatedAt = r2.updatedAt)
    (hht : r1.hasTranscript = r2.hasTranscript)
    (hts : r1.transcriptStatus = r2.transcriptStatus)
    (hdu : r1.duration = r2.duration) (hti : r1.title = r2.title) :
    computeContentHash r1 = computeContentHash r2 := by
  unfold computeContentHash contentKey
  rw [hid, hup, hht, hts, hdu, hti]

/-- Two concrete recordings agreeing on the six hashed fields but differing
on recordedAt, createdAt, fileSize, mimeType, language, deviceId, tags,
folderId and summary. -/
def recHashA : PlaudRecording :=
  { id := "rec-1", title := some "standup", duration := 60,
    recordedAt := "2024-01-02T03:04:05Z", createdAt := "2024-01-02T03:04:05Z",
    updatedAt := "2024-01-03T00:00:00Z", fileSize := some 1000,
    mimeType := "audio/mp4", hasTranscript := true,
    transcriptStatus := some .completed, language := some "en",
    deviceId := some "d1", tags := some ["work"], folderId := none,
    summary := none }

def recHashB : PlaudRecording :=
  { recHashA with
      recordedAt := "2020-06-07T08:09:10Z",
      createdAt := "2020-06-07T08:09:10Z", fileSize := some 42,
      mimeType := "audio/mpeg", language := some "de", deviceId := none,
      tags := some ["other", "tag2"], folderId := some "f9",
      summary := some "changed" }

theorem computeContentHash_field_subset_witness :
    recHashA.recordedAt ≠ recHashB.recordedAt ∧
      recHashA.mimeType ≠ recHashB.mimeType ∧
      computeContentHash recHashA = computeContentHash recHashB :=
  ⟨by decide, by decide,
   computeContentHash_field_subset recHashA recHashB rfl rfl rfl rfl rfl rfl⟩

/-! ## Checksum manager (src/storage/checksums.ts)

The on-disk directory is modelled as a map from path to optional byte
contents; the `readFile` + `JSON.parse` of the manifest is modelled by an
`Except` parameter capturing the try/catch at the top of
`verifyChecksums`. -/

def FileSys : Type := String → Option (List Nat)

def fsSet (fs : FileSys) (p : String) (v : Option (List Nat)) : FileSys :=
  fun q => if q = p then v else fs q

structure FileChecksum where
  sha256 : String
  sizeBytes : Nat
deriving DecidableEq, Repr

structure ChecksumManifest where
  recordingId : String
  computedAt : String
  files : List (String × FileChecksum)
deriving DecidableEq, Repr

/-- `ChecksumMismatchError` (src/errors.ts:48), reduced to its three data
fields. -/
structure ChecksumMismatch where
  filePath : String
  expected : String
  actual : String
deriving DecidableEq, Repr

def pathJoin (dir file : String) : String := dir ++ "/" ++ file

/-- `sha256File` (src/storage/checksums.ts:19): reads the file and hashes
it; a missing file is the thrown-error case, hence `none`. -/
def sha256File (fs : FileSys) (p : String) : Option String :=
  (fs p).map sha256Hex

/-- Loop body of `verifyChecksums` (src/storage/checksums.ts:63). -/
def verifyStep (fs : FileSys) (dir : String) (acc : List ChecksumMismatch)
    (entry : String × FileChecksum) : List ChecksumMismatch :=
  let fPath := pathJoin dir entry.1
  match sha256File fs fPath with
  | none => acc ++ [⟨fPath, entry.2.sha256, "MISSING"⟩]
  | some actual =>
      if actual ≠ entry.2.sha256 then acc ++ [⟨fPath, entry.2.sha256, actual⟩]
      else acc

/-- `verifyChecksums` (src/storage/checksums.ts:50). -/
def verifyChecksums (fs : FileSys) (dir : String)
    (readManifest : Except Unit ChecksumManifest) : List ChecksumMismatch :=
  match readManifest with
  | .error _ => []
  | .ok manifest => manifest.files.foldl (verifyStep fs dir) []

/-- Per-entry mismatch record as the spec words it: a `MISSING` sentinel
for a missing file, a record when the live hash differs, nothing when it
matches. -/
def mismatchFor (fs : FileSys) (dir : String) (entry : String × FileChecksum) :
    Option ChecksumMismatch :=
  match fs (pathJoin dir entry.1) with
  | none => some ⟨pathJoin dir entry.1, entry.2.sha256, "MISSING"⟩
  | some content =>
      if sha256Hex content = entry.2.sha256 then none
      else some ⟨pathJoin dir entry.1, entry.2.sha256, sha256Hex content⟩

theorem verifyStep_foldl (fs : FileSys) (dir : String)
    (l : List (String × FileChecksum)) (acc : List ChecksumMismatch) :
    l.foldl (verifyStep fs dir) acc = acc ++ l.filterMap (mismatchFor fs dir) := by
  induction l generalizing acc with
  | nil => simp
  | cons e t ih =>
    simp only [List.foldl_cons, List.filterMap_cons, ih]
    unfold verifyStep mismatchFor sha256File
    cases h : fs (pathJoin dir e.1) with
    | none => simp [h]
    | some content =>
      by_cases hc : sha256Hex content = e.2.sha256
      · simp [h, hc]
      · simp [h, hc]

/-- C7: with no readable manifest, verification reports nothing; with a
manifest, the mismatch list is exactly one record per entry whose live
hash differs (actual hash reported) or whose file is missing (the
`MISSING` sentinel); matching entries contribute nothing.  The model is a
pure function of the file system, so no file is mutated. -/
theorem verifyChecksums_spec (fs : FileSys) (dir : String) :
    (∀ e, verifyChecksums fs dir (.error e) = []) ∧
      (∀ m, verifyChecksums fs dir (.ok m) =
        m.files.filterMap (mismatchFor fs dir)) := by
  refine ⟨fun e => rfl, fun m => ?_⟩
  unfold verifyChecksums
  simpa using verifyStep_foldl fs dir m.files []

/-! ## Atomic writer (src/storage/atomic.ts, writeFileAtomic)

Failure injection: the outcome oracle says which primitive operation (if
any) throws.  Snapshots record the file system after each primitive step,
so the no-visible-destination-update-until-rename property is statable. -/

inductive WriteOutcome where
  | ok
  | failMkdir (cause : String)
  | failWrite (cause : String) (written : List Nat)
  | failRename (cause : String)
deriving DecidableEq, Repr

/-- `StorageError` (src/errors.ts:37), reduced to its data fields. -/
structure StorageError where
  message : String
  path : String
  cause : String
deriving DecidableEq, Repr

def WriteOutcome.causeOf : WriteOutcome → Option String
  | .ok => none
  | .failMkdir c => some c
  | .failWrite c _ => some c
  | .failRename c => some c

/-- Temporary sibling name: `filePath ++ ".tmp-" ++ <8 hex chars>`. -/
def tmpName (filePath : String) (rand : Nat) : String :=
  filePath ++ ".tmp-" ++ toHex (bytesBE 4 rand)

structure AtomicRun where
  result : Except StorageError Unit
  final : FileSys
  snapshots : List FileSys

/-- `writeFileAtomic` (src/storage/atomic.ts:8): mkdir, write the unique
tmp sibling, rename over the destination; on any thrown error unlink the
tmp file and throw a `StorageError` carrying the destination path and the
cause. -/
def writeFileAtomic (fs : FileSys) (filePath : String) (data : List Nat)
    (rand : Nat) (outcome : WriteOutcome) : AtomicRun :=
  let tmp := tmpName filePath rand
  let err : String → StorageError :=
    fun c => ⟨"Failed to write " ++ filePath, filePath, c⟩
  match outcome with
  | .ok =>
      let fs2 := fsSet fs tmp (some data)
      let fs3 := fsSet (fsSet fs2 filePath (some data)) tmp none
      ⟨.ok (), fs3, [fs, fs, fs2, fs3]⟩
  | .failMkdir c =>
      ⟨.error (err c), fsSet fs tmp none, [fs, fs]⟩
  | .failWrite c written =>
      let fs2 := fsSet fs tmp (some written)
      ⟨.error (err c), fsSet fs2 tmp none, [fs, fs, fs2]⟩
  | .failRename c =>
      let fs2 := fsSet fs tmp (some data)
      ⟨.error (err c), fsSet fs2 tmp none, [fs, fs, fs2]⟩

theorem tmpName_ne (filePath : String) (rand : Nat) :
    tmpName filePath rand ≠ filePath := by
  intro h
  have hl := congrArg String.length h
  rw [tmpName, String.length_append, String.length_append] at hl
  have : (".tmp-" : String).length = 5 := rfl
  omega

/-- C8: the destination is untouched in every intermediate state and ends
either unchanged or holding the full new content; success renames the tmp
file into place; every failure deletes the tmp file, leaves the
destination in its prior state, and reports a `StorageError` carrying the
destination path and the throwing operation's cause. -/
theorem writeFileAtomic_spec (fs : FileSys) (filePath : String)
    (data : List Nat) (rand : Nat) (outcome : WriteOutcome) :
    (∀ g ∈ (writeFileAtomic fs filePath data rand outcome).snapshots.dropLast,
        g filePath = fs filePath) ∧
      ((writeFileAtomic fs filePath data rand outcome).final filePath = fs filePath ∨
        (writeFileAtomic fs filePath data rand outcome).final filePath = some data) ∧
      (outcome = .ok →
        (writeFileAtomic fs filePath data rand outcome).result = .ok () ∧
          (writeFileAtomic fs filePath data rand outcome).final filePath = some data ∧
          (writeFileAtomic fs filePath data rand outcome).final (tmpName filePath rand) = none) ∧
      (outcome ≠ .ok →
        (writeFileAtomic fs filePath data rand outcome).final (tmpName filePath rand) = none ∧
          (writeFileAtomic fs filePath data rand outcome).final filePath = fs filePath ∧
          ∃ c, outcome.causeOf = some c ∧
            (writeFileAtomic fs filePath data rand outcome).result =
              .error ⟨"Failed to write " ++ filePath, filePath, c⟩) := by
  have hne := tmpName_ne filePath rand
  have hne2 : ¬filePath = tmpName filePath rand := fun h => hne h.symm
  cases outcome with
  | ok =>
      refine ⟨?_, ?_, ?_, ?_⟩
      · intro g hg
        simp only [writeFileAtomic, List.dropLast, List.mem_cons,
          List.not_mem_nil, or_false] at hg
        rcases hg with rfl | rfl | rfl
        · rfl
        · rfl
        · simp [fsSet, hne2]
      · exact Or.inr (by simp [writeFileAtomic, fsSet, hne2])
      · intro _
        refine ⟨rfl, by simp [writeFileAtomic, fsSet, hne2],
          by simp [writeFileAtomic, fsSet]⟩
      · intro hcon
        exact absurd rfl hcon
  | failMkdir c =>
      refine ⟨?_, ?_, ?_, ?_⟩
      · intro g hg
        simp only [writeFileAtomic, List.dropLast, List.mem_cons,
          List.not_mem_nil, or_false] at hg
        subst hg
        rfl
      · exact Or.inl (by simp [writeFileAtomic, fsSet, hne2])
      · intro hcon
        cases hcon
      · intro _
        exact ⟨by simp [writeFileAtomic, fsSet],
          by simp [writeFileAtomic, fsSet, hne2], c, rfl, rfl⟩
  | failWrite c written =>
      refine ⟨?_, ?_, ?_, ?_⟩
      · intro g hg
        simp only [writeFileAtomic, List.dropLast, List.mem_cons,
          List.not_mem_nil, or_false, or_self] at hg
        subst hg
        rfl
      · exact Or.inl (by simp [writeFileAtomic, fsSet, hne2])
      · intro hcon
        cases hcon
      · intro _
        exact ⟨by simp [writeFileAtomic, fsSet],
          by simp [writeFileAtomic, fsSet, hne2], c, rfl, rfl⟩
  | failRename c =>
      refine ⟨?_, ?_, ?_, ?_⟩
      · intro g hg
        simp only [writeFileAtomic, List.dropLast, List.mem_cons,
          List.not_mem_nil, or_false, or_self] at hg
        subst hg
        rfl
      · exact Or.inl (by simp [writeFileAtomic, fsSet, hne2])
      · intro hcon
        cases hcon
      · intro _
        exact ⟨by simp [writeFileAtomic, fsSet],
          by simp [writeFileAtomic, fsSet, hne2], c, rfl, rfl⟩

/-- Concrete instantiation of the atomic-write contract at a failed tmp
write: an error carrying path and cause, no tmp residue, destination
unchanged. -/
theorem writeFileAtomic_spec_witness :
    (WriteOutcome.failWrite "ENOSPC" [1] ≠ .ok) ∧
      ((writeFileAtomic (fun _ => none) "out/meta.json" [1, 2, 3] 0
          (.failWrite "ENOSPC" [1])).final (tmpName "out/meta.json" 0) = none ∧
        (writeFileAtomic (fun _ => none) "out/meta.json" [1, 2, 3] 0
          (.failWrite "ENOSPC" [1])).final "out/meta.json" = none ∧
        ∃ c, (WriteOutcome.failWrite "ENOSPC" [1]).causeOf = some c ∧
          (writeFileAtomic (fun _ => none) "out/meta.json" [1, 2, 3] 0
            (.failWrite "ENOSPC" [1])).result =
              .error ⟨"Failed to write out/meta.json", "out/meta.json", c⟩) := by
  refine ⟨by decide, ?_⟩
  have h := (writeFileAtomic_spec (fun _ => none) "out/meta.json" [1, 2, 3] 0
    (.failWrite "ENOSPC" [1])).2.2.2 (by decide)
  exact h

/-! ## Error taxonomy (src/errors.ts) and retry policy
(retryWithBackoff, src/sync/download-queue.ts) -/

inductive PErr where
  | api (message : String) (statusCode : Int)
  | auth (message : String)
  | storage (message : String) (path : String)
  | generic (message : String)
deriving DecidableEq, Repr

instance {ε α : Type} [DecidableEq ε] [DecidableEq α] : DecidableEq (Except ε α)
  | .ok a, .ok b =>
      if h : a = b then .isTrue (h ▸ rfl)
      else .isFalse (fun hc => h (Except.ok.inj hc))
  | .error a, .error b =>
      if h : a = b then .isTrue (h ▸ rfl)
      else .isFalse (fun hc => h (Except.error.inj hc))
  | .ok _, .error _ => .isFalse (fun hc => Except.noConfusion hc)
  | .error _, .ok _ => .isFalse (fun hc => Except.noConfusion hc)

def PErr.message : PErr → String
  | .api m _ => m
  | .auth m => m
  | .storage m _ => m
  | .generic m => m

/-- `ApiError.isRetryable` (src/errors.ts:32). -/
def apiIsRetryable (statusCode : Int) : Bool :=
  statusCode ≥ 500 || statusCode = 429

/-- Does `needle` occur at the head of `hay`. -/
def headMatch : List Char → List Char → Bool
  | _, [] => true
  | [], _ :: _ => false
  | h :: t, nh :: nt => h = nh && headMatch t nt

def containsSub : List Char → List Char → Bool
  | [], pat => pat.isEmpty
  | c :: t, pat => headMatch (c :: t) pat || containsSub t pat

/-- `message.includes(pat)` on the JS string. -/
def strContains (s pat : String) : Bool := containsSub s.data pat.data

/-- `isRetryableError` (src/sync/download-queue.ts:205): an `ApiError`
answers its own `isRetryable`; any other error is retryable only when its
message mentions 429. -/
def isRetryableError : PErr → Bool
  | .api _ status => apiIsRetryable status
  | e => strContains e.message "429"

/-- Attempt loop of `retryWithBackoff` (src/sync/download-queue.ts:181).
`remaining` counts the attempts still allowed after the current one, so
`remaining = 0` is the source's `attempt === maxAttempts` last attempt;
the pair's second component counts invocations of `fn`. -/
def retryGo (fn : Nat → Except PErr α) : Nat → Nat → Except PErr α × Nat
  | attempt, remaining =>
    match fn attempt with
    | .ok v => (.ok v, 1)
    | .error e =>
      match remaining with
      | 0 => (.error e, 1)
      | r + 1 =>
        if isRetryableError e then
          let res := retryGo fn (attempt + 1) r
          (res.1, res.2 + 1)
        else (.error e, 1)

/-- `retryWithBackoff` (src/sync/download-queue.ts:173), default attempt
ceiling 4; the fixed delay schedule [0, 1000, 4000, 16000] only affects
timing, not the value semantics modelled here. -/
def retryWithBackoff (fn : Nat → Except PErr α) (maxAttempts : Nat := 4) :
    Except PErr α × Nat :=
  retryGo fn 1 (maxAttempts - 1)

/-- C4: with the default ceiling of 4 attempts, two retryable failures
followed by a success yield the success value after exactly 3 invocations;
a non-retryable first failure propagates after exactly 1 invocation; four
straight failures (the first three retryable) exhaust the ceiling and
re-raise the last error after exactly 4 invocations. -/
theorem retryWithBackoff_spec (fn gn hn : Nat → Except PErr Nat) :
    (∀ e1 e2 v, fn 1 = .error e1 → isRetryableError e1 = true →
      fn 2 = .error e2 → isRetryableError e2 = true → fn 3 = .ok v →
      retryWithBackoff fn 4 = (.ok v, 3)) ∧
    (∀ e, gn 1 = .error e → isRetryableError e = false →
      retryWithBackoff gn 4 = (.error e, 1)) ∧
    (∀ e1 e2 e3 e4, hn 1 = .error e1 → isRetryableError e1 = true →
      hn 2 = .error e2 → isRetryableError e2 = true →
      hn 3 = .error e3 → isRetryableError e3 = true →
      hn 4 = .error e4 →
      retryWithBackoff hn 4 = (.error e4, 4)) := by
  refine ⟨?_, ?_, ?_⟩
  · intro e1 e2 v h1 hr1 h2 hr2 h3
    simp [retryWithBackoff, retryGo, h1, hr1, h2, hr2, h3]
  · intro e h1 hr1
    simp [retryWithBackoff, retryGo, h1, hr1]
  · intro e1 e2 e3 e4 h1 hr1 h2 hr2 h3 hr3 h4
    simp [retryWithBackoff, retryGo, h1, hr1, h2, hr2, h3, hr3, h4]

/-- Concrete retry scenarios: a 503 twice then success, an auth rejection,
and four straight 503s. -/
def retryFnA : Nat → Except PErr Nat :=
  fun i => if i < 3 then .error (.api "service unavailable" 503) else .ok 42

def retryFnB : Nat → Except PErr Nat :=
  fun _ => .error (.auth "token rejected")

def retryFnC : Nat → Except PErr Nat :=
  fun _ => .error (.api "service unavailable" 503)

theorem retryWithBackoff_spec_witness :
    retryWithBackoff retryFnA 4 = (.ok 42, 3) ∧
      retryWithBackoff retryFnB 4 = (.error (.auth "token rejected"), 1) ∧
      retryWithBackoff retryFnC 4 = (.error (.api "service unavailable" 503), 4) :=
  ⟨(retryWithBackoff_spec retryFnA retryFnB retryFnC).1 _ _ 42 rfl rfl rfl rfl rfl,
   (retryWithBackoff_spec retryFnA retryFnB retryFnC).2.1 _ rfl (by decide),
   (retryWithBackoff_spec retryFnA retryFnB retryFnC).2.2 _ _ _ _ rfl rfl rfl rfl rfl rfl rfl⟩

/-! ## Bounded work queue (processQueue, src/sync/download-queue.ts)

Items are identified by their index in the input list; `ok i` says whether
the processor promise for item `i` resolves or rejects; `pick n` is the
event-loop oracle choosing which in-flight task completes at the n-th
completion event.  The concurrency bound is an `Int` because the source
compares `active < concurrency` on JS numbers, where a non-positive bound
never admits a task.  One drain-loop iteration of the source (await the
resolve promise, then `await tick()`) is one `queueStep`; `.stuck` is the
state where the loop awaits a resolve although no task is in flight, so
the promise can never settle. -/

structure QState where
  index : Nat
  inFlight : List Nat
  succeeded : List Nat
  failed : List Nat
deriving DecidableEq, Repr

/-- The synchronous start loop inside `tick`: while `active < concurrency`
and items remain, start the next item.  Fuelled structurally; it runs at
most `len - index` times. -/
def tickGo (c : Int) (len : Nat) : Nat → QState → QState
  | 0, s => s
  | f + 1, s =>
    if (s.inFlight.length : Int) < c ∧ s.index < len then
      tickGo c len f ⟨s.index + 1, s.inFlight ++ [s.index], s.succeeded, s.failed⟩
    else s

def tick (c : Int) (len : Nat) (s : QState) : QState :=
  tickGo c len (len - s.index) s

/-- One completion event: the chosen in-flight task's finally block
records its outcome and resolves the drain promise, and the drain loop
runs `tick` again. -/
def queueStep (c : Int) (len : Nat) (ok : Nat → Bool) (pickv : Nat)
    (s : QState) : QState :=
  if s.inFlight = [] then s
  else
    let k := pickv % s.inFlight.length
    let item := s.inFlight.getD k 0
    tick c len
      { index := s.index
        inFlight := s.inFlight.eraseIdx k
        succeeded := if ok item then s.succeeded ++ [item] else s.succeeded
        failed := if ok item then s.failed else s.failed ++ [item] }

inductive QResult where
  | done (s : QState)
  | stuck (s : QState)
  | out (s : QState)
deriving DecidableEq, Repr

/-- The drain loop, returning the result and the trace of states observed
at each loop head. -/
def queueLoop (c : Int) (len : Nat) (ok : Nat → Bool) (pick : Nat → Nat) :
    Nat → Nat → QState → QResult × List QState
  | 0, _, s => (.out s, [s])
  | fuel + 1, n, s =>
    if s.inFlight = [] ∧ len ≤ s.index then (.done s, [s])
    else if s.inFlight = [] then (.stuck s, [s])
    else
      let r := queueLoop c len ok pick fuel (n + 1) (queueStep c len ok (pick n) s)
      (r.1, s :: r.2)

/-- `processQueue` (src/sync/download-queue.ts:124): the initial `await
tick()` followed by the drain loop. -/
def processQueue (c : Int) (len : Nat) (ok : Nat → Bool) (pick : Nat → Nat)
    (fuel : Nat) : QResult × List QState :=
  queueLoop c len ok pick fuel 0 (tick c len ⟨0, [], [], []⟩)

/-- Progress measure: two steps per not-yet-started item, one per
in-flight item. -/
def qMeasure (len : Nat) (s : QState) : Nat :=
  2 * (len - s.index) + s.inFlight.length

/-- Queue invariant: indices processed so far, in flight, and not yet
started partition the input range, and recorded outcomes agree with the
processor oracle. -/
def QInv (len : Nat) (ok : Nat → Bool) (s : QState) : Prop :=
  s.index ≤ len ∧
    ((s.succeeded : Multiset Nat) + ↑s.failed + ↑s.inFlight +
      ↑(List.range' s.index (len - s.index)) = ↑(List.range len)) ∧
    (∀ i ∈ s.succeeded, ok i = true) ∧
    (∀ i ∈ s.failed, ok i = false)

/-- After `tick`, either the concurrency bound is saturated or all items
have been started. -/
def postTick (c : Int) (len : Nat) (s : QState) : Prop :=
  c ≤ (s.inFlight.length : Int) ∨ len ≤ s.index

theorem tickGo_inv (c : Int) (len : Nat) (ok : Nat → Bool) :
    ∀ (f : Nat) (s : QState), QInv len ok s → QInv len ok (tickGo c len f s) := by
  intro f
  induction f with
  | zero => exact fun s h => h
  | succ f ih =>
    intro s h
    unfold tickGo
    split
    · rename_i hcond
      apply ih
      obtain ⟨h1, h2, h3, h4⟩ := h
      refine ⟨hcond.2, ?_, h3, h4⟩
      dsimp only
      have hr : len - s.index = (len - (s.index + 1)) + 1 := by omega
      rw [hr, List.range'_succ] at h2
      rw [← h2]
      simp only [← Multiset.cons_coe, ← Multiset.coe_add, ← Multiset.singleton_add,
        Multiset.coe_nil, add_zero]
      abel
    · exact h

theorem tickGo_bound (c : Int) (len : Nat) :
    ∀ (f : Nat) (s : QState), (s.inFlight.length : Int) ≤ max c 0 →
      ((tickGo c len f s).inFlight.length : Int) ≤ max c 0 := by
  intro f
  induction f with
  | zero => exact fun s h => h
  | succ f ih =>
    intro s h
    unfold tickGo
    split
    · rename_i hcond
      apply ih
      have hlt := hcond.1
      have hc0 : c ≤ max c 0 := le_max_left c 0
      dsimp only
      simp only [List.length_append, List.length_cons, List.length_nil]
      push_cast
      push_cast at hlt
      omega
    · exact h

theorem tickGo_post (c : Int) (len : Nat) :
    ∀ (f : Nat) (s : QState), len - s.index ≤ f →
      postTick c len (tickGo c len f s) := by
  intro f
  induction f with
  | zero =>
    intro s h
    show postTick c len s
    exact Or.inr (by omega)
  | succ f ih =>
    intro s h
    unfold tickGo
    split
    · rename_i hcond
      refine ih _ ?_
      have hlt := hcond.2
      dsimp only
      omega
    · rename_i hcond
      rcases not_and_or.mp hcond with hl | hi
      · exact Or.inl (by omega)
      · exact Or.inr (by omega)

theorem tickGo_measure (c : Int) (len : Nat) :
    ∀ (f : Nat) (s : QState), qMeasure len (tickGo c len f s) ≤ qMeasure len s := by
  intro f
  induction f with
  | zero => exact fun s => le_refl _
  | succ f ih =>
    intro s
    unfold tickGo
    split
    · rename_i hcond
      refine (ih _).trans ?_
      have hlt := hcond.2
      simp only [qMeasure, List.length_append, List.length_cons, List.length_nil]
      omega
    · exact le_refl _

theorem tick_post (c : Int) (len : Nat) (s : QState) :
    postTick c len (tick c len s) :=
  tickGo_post c len _ s (le_refl _)

theorem coe_append_singleton (l : List Nat) (x : Nat) :
    ((l ++ [x] : List Nat) : Multiset Nat) = ↑l + {x} := by
  rw [← Multiset.coe_add, Multiset.coe_singleton]

theorem coe_cons_eq (x : Nat) (l : List Nat) :
    ((x :: l : List Nat) : Multiset Nat) = {x} + ↑l := by
  rw [← Multiset.cons_coe, ← Multiset.singleton_add]

theorem getD_cons_eraseIdx_perm :
    ∀ (l : List Nat) (k : Nat), k < l.length →
      List.Perm (l.getD k 0 :: l.eraseIdx k) l := by
  intro l
  induction l with
  | nil => intro k hk; simp at hk
  | cons h t ih =>
    intro k hk
    cases k with
    | zero => simp
    | succ k =>
      have hk2 : k < t.length := by simpa using hk
      simp only [List.getD_cons_succ, List.eraseIdx_cons_succ]
      exact (List.Perm.swap h (t.getD k 0) _).trans ((ih k hk2).cons h)

theorem queueStep_inv (c : Int) (len : Nat) (ok : Nat → Bool) (pickv : Nat)
    (s : QState) (hinv : QInv len ok s) :
    QInv len ok (queueStep c len ok pickv s) := by
  unfold queueStep
  split
  · exact hinv
  · rename_i hne
    refine tickGo_inv c len ok _ _ ?_
    obtain ⟨h1, h2, h3, h4⟩ := hinv
    have hpos : 0 < s.inFlight.length := List.length_pos.mpr hne
    have hk : pickv % s.inFlight.length < s.inFlight.length := Nat.mod_lt _ hpos
    have hperm :=
      getD_cons_eraseIdx_perm s.inFlight (pickv % s.inFlight.length) hk
    have hco : ((s.inFlight : Multiset Nat)) =
        ↑(s.inFlight.getD (pickv % s.inFlight.length) 0 ::
          s.inFlight.eraseIdx (pickv % s.inFlight.length)) :=
      (Multiset.coe_eq_coe.mpr hperm).symm
    refine ⟨h1, ?_, ?_, ?_⟩
    · dsimp only
      rw [← h2, hco]
      by_cases hok : ok (s.inFlight.getD (pickv % s.inFlight.length) 0)
      · simp only [hok, if_true, coe_append_singleton, coe_cons_eq]
        abel
      · simp only [hok, Bool.false_eq_true, if_false, coe_append_singleton,
          coe_cons_eq]
        abel
    · dsimp only
      by_cases hok : ok (s.inFlight.getD (pickv % s.inFlight.length) 0)
      · simp only [hok, if_true]
        intro i hi
        rcases List.mem_append.mp hi with hi | hi
        · exact h3 i hi
        · cases List.mem_singleton.mp hi
          exact hok
      · simp only [hok, if_false]
        exact h3
    · dsimp only
      by_cases hok : ok (s.inFlight.getD (pickv % s.inFlight.length) 0)
      · simp only [hok, if_true]
        exact h4
      · simp only [hok, if_false]
        intro i hi
        rcases List.mem_append.mp hi with hi | hi
        · exact h4 i hi
        · cases List.mem_singleton.mp hi
          exact Bool.not_eq_true _ ▸ hok

theorem queueStep_bound (c : Int) (len : Nat) (ok : Nat → Bool) (pickv : Nat)
    (s : QState) (h : (s.inFlight.length : Int) ≤ max c 0) :
    ((queueStep c len ok pickv s).inFlight.length : Int) ≤ max c 0 := by
  unfold queueStep
  split
  · exact h
  · refine tickGo_bound c len _ _ ?_
    dsimp only
    have hle := List.length_eraseIdx_le s.inFlight (pickv % s.inFlight.length)
    omega

theorem queueStep_measure (c : Int) (len : Nat) (ok : Nat → Bool) (pickv : Nat)
    (s : QState) (hne : s.inFlight ≠ []) :
    qMeasure len (queueStep c len ok pickv s) < qMeasure len s := by
  unfold queueStep
  split
  · exact absurd (by assumption) hne
  · refine lt_of_le_of_lt (tickGo_measure c len _ _) ?_
    have hpos : 0 < s.inFlight.length := List.length_pos.mpr hne
    have hk : pickv % s.inFlight.length < s.inFlight.length := Nat.mod_lt _ hpos
    have hlen := List.length_eraseIdx_of_lt hk
    simp only [qMeasure]
    omega

theorem queueStep_post (c : Int) (len : Nat) (ok : Nat → Bool) (pickv : Nat)
    (s : QState) (hne : s.inFlight ≠ []) :
    postTick c len (queueStep c len ok pickv s) := by
  unfold queueStep
  split
  · exact absurd (by assumption) hne
  · exact tick_post c len _

theorem queueLoop_done (c : Int) (len : Nat) (ok : Nat → Bool)
    (pick : Nat → Nat) (hc : 1 ≤ c) :
    ∀ (fuel n : Nat) (s : QState), QInv len ok s → postTick c len s →
      qMeasure len s < fuel →
      ∃ t, (queueLoop c len ok pick fuel n s).1 = .done t ∧ QInv len ok t ∧
        t.inFlight = [] ∧ t.index = len := by
  intro fuel
  induction fuel with
  | zero => intro n s _ _ hm; omega
  | succ fuel ih =>
    intro n s hinv hpost hm
    unfold queueLoop
    split
    · rename_i hdone
      exact ⟨s, rfl, hinv, hdone.1, le_antisymm hinv.1 hdone.2⟩
    · split
      · rename_i hnd hstuck
        exfalso
        rcases hpost with hcle | hidx
        · rw [hstuck] at hcle
          simp at hcle
          omega
        · exact hnd ⟨hstuck, hidx⟩
      · rename_i hnd hne
        have hm2 : qMeasure len (queueStep c len ok (pick n) s) < fuel := by
          have := queueStep_measure c len ok (pick n) s hne
          omega
        obtain ⟨t, ht, htinv, htemp, htidx⟩ :=
          ih (n + 1) (queueStep c len ok (pick n) s)
            (queueStep_inv c len ok (pick n) s hinv)
            (queueStep_post c len ok (pick n) s hne) hm2
        exact ⟨t, ht, htinv, htemp, htidx⟩

theorem queueLoop_trace_bound (c : Int) (len : Nat) (ok : Nat → Bool)
    (pick : Nat → Nat) :
    ∀ (fuel n : Nat) (s : QState), (s.inFlight.length : Int) ≤ max c 0 →
      ∀ t ∈ (queueLoop c len ok pick fuel n s).2,
        (t.inFlight.length : Int) ≤ max c 0 := by
  intro fuel
  induction fuel with
  | zero =>
    intro n s hb t ht
    rcases List.mem_singleton.mp ht with rfl
    exact hb
  | succ fuel ih =>
    intro n s hb t ht
    rw [queueLoop] at ht
    split at ht
    · rcases List.mem_singleton.mp ht with rfl
      exact hb
    · split at ht
      · rcases List.mem_singleton.mp ht with rfl
        exact hb
      · rcases List.mem_cons.mp ht with rfl | ht2
        · exact hb
        · exact ih (n + 1) _ (queueStep_bound c len ok (pick n) s hb) t ht2

/-- The initial state satisfies the queue invariant. -/
theorem QInv_init (len : Nat) (ok : Nat → Bool) :
    QInv len ok (⟨0, [], [], []⟩ : QState) := by
  refine ⟨Nat.zero_le _, ?_, by simp, by simp⟩
  simp [List.range_eq_range']

/-- With any concurrency bound of at least 1, the queue drains within
`2 * len + 1` loop iterations into a done state partitioning the input. -/
theorem processQueue_completes (c : Int) (len : Nat) (ok : Nat → Bool)
    (pick : Nat → Nat) (hc : 1 ≤ c) :
    ∃ s, (processQueue c len ok pick (2 * len + 1)).1 = .done s ∧
      s.inFlight = [] ∧ s.index = len ∧
      List.Perm (s.succeeded ++ s.failed) (List.range len) ∧
      (∀ i ∈ s.succeeded, ok i = true) ∧
      (∀ i ∈ s.failed, ok i = false) := by
  have hinv1 : QInv len ok (tick c len ⟨0, [], [], []⟩) :=
    tickGo_inv c len ok _ _ (QInv_init len ok)
  have hpost1 := tick_post c len (⟨0, [], [], []⟩ : QState)
  have hm : qMeasure len (tick c len ⟨0, [], [], []⟩) < 2 * len + 1 := by
    have h := tickGo_measure c len
      (len - (⟨0, [], [], []⟩ : QState).index) (⟨0, [], [], []⟩ : QState)
    have h2 : qMeasure len (⟨0, [], [], []⟩ : QState) = 2 * len := by
      simp [qMeasure]
    unfold tick
    omega
  obtain ⟨t, ht, ⟨h1, h2, h3, h4⟩, hemp, hidx⟩ :=
    queueLoop_done c len ok pick hc (2 * len + 1) 0 _ hinv1 hpost1 hm
  refine ⟨t, ht, hemp, hidx, ?_, h3, h4⟩
  rw [hemp, hidx] at h2
  simp only [Nat.sub_self, List.range'_zero, Multiset.coe_nil, add_zero] at h2
  rw [← Multiset.coe_eq_coe, ← Multiset.coe_add]
  exact h2

theorem tickGo_nonpos (c : Int) (len : Nat) (hc : c ≤ 0) :
    ∀ (f : Nat) (s : QState), s.inFlight = [] → tickGo c len f s = s := by
  intro f
  cases f with
  | zero => exact fun s _ => rfl
  | succ f =>
    intro s hemp
    unfold tickGo
    split
    · rename_i hcond
      exfalso
      have hlt := hcond.1
      rw [hemp] at hlt
      simp at hlt
      omega
    · rfl

/-- C3 (amended to require concurrency at least 1): at every state of the
drain loop at most `c` tasks are in flight; the queue drains (`done`
means the loop exited with nothing in flight), and the succeeded and
failed index lists together contain every input position exactly once,
with sizes summing to the input size, outcomes matching the processor
oracle. -/
theorem processQueue_spec (c : Int) (len : Nat) (ok : Nat → Bool)
    (pick : Nat → Nat) (hc : 1 ≤ c) :
    (∀ t ∈ (processQueue c len ok pick (2 * len + 1)).2,
        (t.inFlight.length : Int) ≤ c) ∧
      ∃ s, (processQueue c len ok pick (2 * len + 1)).1 = .done s ∧
        s.inFlight = [] ∧
        List.Perm (s.succeeded ++ s.failed) (List.range len) ∧
        s.succeeded.length + s.failed.length = len ∧
        (∀ i ∈ s.succeeded, ok i = true) ∧
        (∀ i ∈ s.failed, ok i = false) := by
  constructor
  · have hmax : max c 0 = c := max_eq_left (by omega)
    intro t ht
    have hb0 : (((⟨0, [], [], []⟩ : QState)).inFlight.length : Int) ≤ max c 0 := by
      simp
    have hb1 := tickGo_bound c len
      (len - (⟨0, [], [], []⟩ : QState).index) (⟨0, [], [], []⟩ : QState) hb0
    have hb2 : ((tick c len ⟨0, [], [], []⟩).inFlight.length : Int) ≤ max c 0 := hb1
    have hres := queueLoop_trace_bound c len ok pick (2 * len + 1) 0 _ hb2 t ht
    rwa [hmax] at hres
  · obtain ⟨s, h1, h2, _, h4, h5, h6⟩ := processQueue_completes c len ok pick hc
    refine ⟨s, h1, h2, h4, ?_, h5, h6⟩
    have hl := h4.length_eq
    rwa [List.length_append, List.length_range] at hl

theorem processQueue_spec_witness :
    (∀ t ∈ (processQueue 2 3 (fun i => decide (i ≠ 1)) (fun _ => 0) 7).2,
        (t.inFlight.length : Int) ≤ 2) ∧
      ∃ s, (processQueue 2 3 (fun i => decide (i ≠ 1)) (fun _ => 0) 7).1 = .done s ∧
        s.inFlight = [] ∧
        List.Perm (s.succeeded ++ s.failed) (List.range 3) ∧
        s.succeeded.length + s.failed.length = 3 ∧
        (∀ i ∈ s.succeeded, (fun i => decide (i ≠ 1)) i = true) ∧
        (∀ i ∈ s.failed, (fun i => decide (i ≠ 1)) i = false) :=
  processQueue_spec 2 3 (fun i => decide (i ≠ 1)) (fun _ => 0) (by decide)

/-- C3 as stated fails at concurrency 0: with a single input item the
initial tick starts nothing and the drain loop immediately awaits a
resolve that no task will ever trigger, so processQueue never returns a
result pair. -/
theorem processQueue_zero_concurrency_cex :
    (processQueue 0 1 (fun _ => true) (fun _ => 0) 5).1 = .stuck ⟨0, [], [], []⟩ := by
  decide

/-- C10: with concurrency at least 1 the queue terminates and processes
every input position exactly once; with non-positive concurrency and a
non-empty input the drain loop is stuck for every fuel (the promise never
settles); an empty input returns immediately for any concurrency. -/
theorem processQueue_totality (c : Int) (len : Nat) (ok : Nat → Bool)
    (pick : Nat → Nat) :
    (1 ≤ c → ∃ s, (processQueue c len ok pick (2 * len + 1)).1 = .done s ∧
        List.Perm (s.succeeded ++ s.failed) (List.range len)) ∧
      (c ≤ 0 → 1 ≤ len → ∀ fuel, 1 ≤ fuel →
        (processQueue c len ok pick fuel).1 = .stuck ⟨0, [], [], []⟩) ∧
      (len = 0 → ∀ fuel, 1 ≤ fuel →
        (processQueue c len ok pick fuel).1 = .done ⟨0, [], [], []⟩) := by
  refine ⟨?_, ?_, ?_⟩
  · intro hc
    obtain ⟨s, h1, _, _, h4, _, _⟩ := processQueue_completes c len ok pick hc
    exact ⟨s, h1, h4⟩
  · intro hc hlen fuel hfuel
    have hinit : tick c len (⟨0, [], [], []⟩ : QState) = ⟨0, [], [], []⟩ :=
      tickGo_nonpos c len hc _ _ rfl
    unfold processQueue
    rw [hinit]
    cases fuel with
    | zero => omega
    | succ f =>
      unfold queueLoop
      rw [if_neg (by rintro ⟨_, hx⟩; dsimp only at hx; omega), if_pos rfl]
  · intro hlen fuel hfuel
    subst hlen
    have hinit : tick c 0 (⟨0, [], [], []⟩ : QState) = ⟨0, [], [], []⟩ := rfl
    unfold processQueue
    rw [hinit]
    cases fuel with
    | zero => omega
    | succ f =>
      unfold queueLoop
      rw [if_pos ⟨rfl, Nat.le_refl 0⟩]

theorem processQueue_totality_witness :
    (∃ s, (processQueue 3 2 (fun _ => true) (fun _ => 0) 5).1 = .done s ∧
        List.Perm (s.succeeded ++ s.failed) (List.range 2)) ∧
      (processQueue 0 2 (fun _ => true) (fun _ => 0) 9).1 = .stuck ⟨0, [], [], []⟩ ∧
      (processQueue (-1) 0 (fun _ => true) (fun _ => 0) 1).1 = .done ⟨0, [], [], []⟩ :=
  ⟨(processQueue_totality 3 2 (fun _ => true) (fun _ => 0)).1 (by decide),
   (processQueue_totality 0 2 (fun _ => true) (fun _ => 0)).2.1 (by decide)
     (by decide) 9 (by decide),
   (processQueue_totality (-1) 0 (fun _ => true) (fun _ => 0)).2.2 rfl 1 (by decide)⟩

/-! ## Recording store, download step and sync engine
(src/unnamed/part_003; src/storage/recording-store.ts)

From the engine's point of view the store, the dataset sink and the remote
client are external effects; they are modelled by per-recording outcome
oracles.  `writeAudioFromUrl` never throws in the source (it catches and
returns false), so it is a plain `Bool`; `getTranscript`,
`getAudioDownloadUrl`, `writeMetadata`, `writeTranscript`,
`datasetAppend` and `writeChecksums` may throw. -/

structure StoreModel where
  writeMetadata : String → Except PErr Unit
  writeTranscript : String → Except PErr Unit
  datasetAppend : String → Except PErr Unit
  writeAudioFromUrl : String → Bool
  writeChecksums : String → Except PErr Unit

structure ClientModel where
  isAuthenticated : Bool
  recordings : List PlaudRecording
  getTranscript : String → Except PErr Unit
  getAudioDownloadUrl : String → Except PErr (Option String)
  hasHttpClient : Bool

/-- Observable per-item effects, in execution order. -/
inductive Ev where
  | meta (id : String)
  | transcript (id : String)
  | dataset (id : String)
  | audio (id : String)
  | checksums (id : String)
  | complete (id : String)
deriving DecidableEq, Repr

/-- `downloadRecording` (src/unnamed/part_003:126): metadata, transcript
(failures caught and recorded as no transcript), audio when an HTTP client
and a download URL are available, checksums, mark complete.  Returns the
`markComplete` payload `(hasAudio, hasTranscript)` and the trace of
performed effects. -/
def downloadRecording (client : ClientModel) (store : StoreModel)
    (includeDataset : Bool) (r : PlaudRecording) :
    Except PErr (Bool × Bool) × List Ev :=
  match store.writeMetadata r.id with
  | .error e => (.error e, [])
  | .ok _ =>
    let tr : Bool × List Ev :=
      if r.hasTranscript then
        match client.getTranscript r.id with
        | .error _ => (false, [])
        | .ok _ =>
          match store.writeTranscript r.id with
          | .error _ => (false, [])
          | .ok _ =>
            if includeDataset then
              match store.datasetAppend r.id with
              | .error _ => (false, [.transcript r.id])
              | .ok _ => (true, [.transcript r.id, .dataset r.id])
            else (true, [.transcript r.id])
      else (false, [])
    let evs1 := Ev.meta r.id :: tr.2
    let audio : Except PErr (Bool × List Ev) :=
      if client.hasHttpClient then
        match client.getAudioDownloadUrl r.id with
        | .error e => .error e
        | .ok none => .ok (false, [])
        | .ok (some _) =>
          let b := store.writeAudioFromUrl r.id
          .ok (b, if b then [.audio r.id] else [])
      else .ok (false, [])
    match audio with
    | .error e => (.error e, evs1)
    | .ok (hasAudio, evA) =>
      match store.writeChecksums r.id with
      | .error e => (.error e, evs1 ++ evA)
      | .ok _ =>
        (.ok (hasAudio, tr.1), evs1 ++ evA ++ [.checksums r.id, .complete r.id])

/-- The per-item processor the engine hands to the queue: the whole
`downloadRecording` wrapped in `retryWithBackoff` (src/unnamed/part_003:87). -/
def processItem (client : ClientModel) (store : StoreModel)
    (includeDataset : Bool) (r : PlaudRecording) : Except PErr (Bool × Bool) :=
  (retryWithBackoff (fun _ => (downloadRecording client store includeDataset r).1) 4).1

def isOkE : Except PErr (Bool × Bool) → Bool
  | .ok _ => true
  | .error _ => false

inductive Mode where
  | sync | backfill
deriving DecidableEq, Repr

/-- The collection loop (src/unnamed/part_003:40): incremental mode skips
items the tracker says need no download; a truthy limit stops collecting
once `toProcess` reaches it. -/
def collect (st : SyncState) (mode : Mode) (limit : Option Nat) :
    List PlaudRecording → List PlaudRecording → List PlaudRecording →
    List PlaudRecording × List PlaudRecording
  | [], toP, sk => (toP, sk)
  | r :: rest, toP, sk =>
    let next :=
      if mode = .sync ∧ needsDownload st r = false then (toP, sk ++ [r])
      else (toP ++ [r], sk)
    let hitLimit :=
      match limit with
      | none => false
      | some l => if l = 0 then false else decide (l ≤ next.1.length)
    if hitLimit then next
    else collect st mode limit rest next.1 next.2

def defaultRec : PlaudRecording :=
  ⟨"", none, 0, "", "", "", none, "audio/mp4", false, none, none, none, none,
   none, none⟩

structure EngineResult where
  mode : Mode
  attempted : Nat
  succeeded : Nat
  failed : Nat
  skipped : Nat
  errors : List String
  tracker : SyncState
deriving DecidableEq, Repr

/-- `SyncEngine.run` (src/unnamed/part_003:12).  Auth gate, tracker load
(`tracker0` is the loaded state; the since filter is applied inside the
client's listing, which `client.recordings` already reflects), collection,
dry-run early return (before any tracker write), the bounded queue over
`processItem`, per-item `markComplete` for succeeded items in completion
order, `markSuccessfulSync` only when no item failed, and the final
`persist` stamping `lastAttemptAt`.  Returns `.ok none` when the queue
oracle run exceeds the supplied fuel (impossible for concurrency ≥ 1 and
fuel 2*n+1). -/
def engineRun (client : ClientModel) (store : StoreModel) (tracker0 : SyncState)
    (mode : Mode) (limit : Option Nat) (concurrency : Int)
    (includeDataset : Bool) (dryRun : Bool) (pick : Nat → Nat) (now : String)
    (fuel : Nat) : Except PErr (Option EngineResult) :=
  if client.isAuthenticated = false then
    .error (.auth "Not authenticated")
  else
    let collected := collect tracker0 mode limit client.recordings [] []
    let items := collected.1
    let skipped := collected.2
    if dryRun then
      .ok (some ⟨mode, 0, 0, 0, skipped.length, [], tracker0⟩)
    else
      let ok := fun i => isOkE (processItem client store includeDataset (items.getD i defaultRec))
      match processQueue concurrency items.length ok pick fuel with
      | (.done qs, _) =>
        let tracker1 := qs.succeeded.foldl (fun st i =>
          let r := items.getD i defaultRec
          match processItem client store includeDataset r with
          | .ok (ha, ht) =>
              markComplete st r.id r.recordedAt ha ht (computeContentHash r) now
          | .error _ => st) tracker0
        let tracker2 :=
          if qs.failed.length = 0 then markSuccessfulSync tracker1 now else tracker1
        let tracker3 := persistStamp tracker2 now
        .ok (some ⟨mode, items.length, qs.succeeded.length, qs.failed.length,
          skipped.length, qs.failed.map (fun i => (items.getD i defaultRec).id),
          tracker3⟩)
      | _ => .ok none

theorem lookup_upsert (l : List (String × RecordingState)) (k : String)
    (v : RecordingState) : (upsert l k v).lookup k = some v := by
  induction l with
  | nil => simp [upsert, List.lookup]
  | cons p t ih =>
    obtain ⟨k0, v0⟩ := p
    unfold upsert
    by_cases hk : k0 = k
    · subst hk
      simp [List.lookup]
    · have hk2 : ¬(k = k0) := fun hh => hk hh.symm
      have hbeq : (k == k0) = false := beq_eq_false_iff_ne.mpr hk2
      simp [List.lookup, hk, hbeq, ih]

theorem markComplete_lastSuccessfulSyncAt (st : SyncState)
    (recordingId recordedAt : String) (ha ht : Bool) (h now : String) :
    (markComplete st recordingId recordedAt ha ht h now).lastSuccessfulSyncAt =
      st.lastSuccessfulSyncAt := rfl

theorem foldl_markComplete_lastSuccessfulSyncAt (client : ClientModel)
    (store : StoreModel) (includeDataset : Bool) (items : List PlaudRecording)
    (now : String) :
    ∀ (l : List Nat) (st : SyncState),
      (l.foldl (fun st i =>
        let r := items.getD i defaultRec
        match processItem client store includeDataset r with
        | .ok (ha, ht) =>
            markComplete st r.id r.recordedAt ha ht (computeContentHash r) now
        | .error _ => st) st).lastSuccessfulSyncAt = st.lastSuccessfulSyncAt := by
  intro l
  induction l with
  | nil => intro st; rfl
  | cons i t ih =>
    intro st
    rw [List.foldl_cons, ih]
    dsimp only
    split
    · rfl
    · rfl

/-- C5: a finished run advances `lastSuccessfulSyncAt` exactly through the
`markSuccessfulSync` call guarded by `errors.length === 0`: with at least
one failed item the persisted value equals the loaded one, and any change
to it implies the run had zero failures. -/
theorem lastSuccessfulSyncAt_only_on_zero_failures (client : ClientModel)
    (store : StoreModel) (tracker0 : SyncState) (mode : Mode)
    (limit : Option Nat) (concurrency : Int) (includeDataset dryRun : Bool)
    (pick : Nat → Nat) (now : String) (fuel : Nat) (res : EngineResult)
    (hrun : engineRun client store tracker0 mode limit concurrency
      includeDataset dryRun pick now fuel = .ok (some res)) :
    (res.failed ≠ 0 →
      res.tracker.lastSuccessfulSyncAt = tracker0.lastSuccessfulSyncAt) ∧
      (res.tracker.lastSuccessfulSyncAt ≠ tracker0.lastSuccessfulSyncAt →
        res.failed = 0) := by
  have hmain : res.failed ≠ 0 →
      res.tracker.lastSuccessfulSyncAt = tracker0.lastSuccessfulSyncAt := by
    unfold engineRun at hrun
    split at hrun
    · cases hrun
    · split at hrun
      · simp only [Except.ok.injEq, Option.some.injEq] at hrun
        subst hrun
        intro _
        rfl
      · simp only [] at hrun
        split at hrun
        · rename_i qs trace heq
          simp only [Except.ok.injEq, Option.some.injEq] at hrun
          subst hrun
          intro hf
          dsimp only at hf ⊢
          rw [if_neg hf]
          exact foldl_markComplete_lastSuccessfulSyncAt client store
            includeDataset _ now qs.succeeded tracker0
        · cases hrun
  exact ⟨hmain, fun hch => not_not.mp (fun hf => hch (hmain hf))⟩

/-- One-item scenario whose checksum write fails, so the single item fails
and the run must not advance the sync timestamp. -/
def c5rec : PlaudRecording :=
  { defaultRec with
      id := "w1", recordedAt := "2024-01-05T00:00:00Z",
      updatedAt := "2024-01-06T00:00:00Z" }

def c5client : ClientModel :=
  ⟨true, [c5rec], fun _ => .ok (), fun _ => .ok none, false⟩

def c5store : StoreModel :=
  ⟨fun _ => .ok (), fun _ => .ok (), fun _ => .ok (), fun _ => false,
   fun _ => .error (.storage "disk full" "p")⟩

def c5tracker0 : SyncState := ⟨some "2024-01-01T00:00:00Z", none, []⟩

def c5res : EngineResult :=
  ⟨.sync, 1, 0, 1, 0, ["w1"],
   ⟨some "2024-01-01T00:00:00Z", some "2024-02-02T00:00:00Z", []⟩⟩

theorem lastSuccessfulSyncAt_only_on_zero_failures_witness :
    c5res.failed ≠ 0 ∧
      c5res.tracker.lastSuccessfulSyncAt = c5tracker0.lastSuccessfulSyncAt :=
  ⟨by decide,
   (lastSuccessfulSyncAt_only_on_zero_failures c5client c5store c5tracker0
      .sync none 1 false false (fun _ => 0) "2024-02-02T00:00:00Z" 3 c5res
      (by decide)).1 (by decide)⟩

/-- C9: a transcript fetch failure, or a transcript write failure, is
caught inside the item attempt: the attempt still performs the audio
download and the checksum write in order, returns `.ok` with the
`markComplete` payload recording `hasTranscript = false`, and
`markComplete` then stores a state with `hasTranscript = false` under the
item's id. -/
theorem downloadRecording_transcript_failure_isolated (client : ClientModel)
    (store : StoreModel) (includeDataset : Bool) (r : PlaudRecording)
    (u : String) (e : PErr)
    (hmeta : store.writeMetadata r.id = .ok ())
    (hT : r.hasTranscript = true)
    (hhttp : client.hasHttpClient = true)
    (hurl : client.getAudioDownloadUrl r.id = .ok (some u))
    (haud : store.writeAudioFromUrl r.id = true)
    (hcheck : store.writeChecksums r.id = .ok ()) :
    (client.getTranscript r.id = .error e →
      downloadRecording client store includeDataset r =
        (.ok (true, false),
         [.meta r.id, .audio r.id, .checksums r.id, .complete r.id])) ∧
      (client.getTranscript r.id = .ok () → store.writeTranscript r.id = .error e →
        downloadRecording client store includeDataset r =
          (.ok (true, false),
           [.meta r.id, .audio r.id, .checksums r.id, .complete r.id])) ∧
      (∀ (st : SyncState) (h now : String),
        lookupRec (markComplete st r.id r.recordedAt true false h now) r.id =
          some ⟨r.recordedAt, some h, some now, true, false, false, none⟩) := by
  refine ⟨?_, ?_, ?_⟩
  · intro htr
    simp [downloadRecording, hmeta, hT, htr, hhttp, hurl, haud, hcheck]
  · intro htr hwr
    simp [downloadRecording, hmeta, hT, htr, hwr, hhttp, hurl, haud, hcheck]
  · intro st h now
    exact lookup_upsert st.recordings r.id _

def c9rec : PlaudRecording :=
  { defaultRec with
      id := "t1", recordedAt := "2024-01-09T00:00:00Z", hasTranscript := true }

def c9client : ClientModel :=
  ⟨true, [c9rec], fun _ => .error (.api "Transcript not found" 404),
   fun _ => .ok (some "https://cdn.example/x"), true⟩

def c9store : StoreModel :=
  ⟨fun _ => .ok (), fun _ => .ok (), fun _ => .ok (), fun _ => true,
   fun _ => .ok ()⟩

theorem downloadRecording_transcript_failure_isolated_witness :
    downloadRecording c9client c9store false c9rec =
      (.ok (true, false),
       [.meta "t1", .audio "t1", .checksums "t1", .complete "t1"]) :=
  (downloadRecording_transcript_failure_isolated c9client c9store false c9rec
    "https://cdn.example/x" (.api "Transcript not found" 404)
    rfl rfl rfl rfl rfl rfl).1 rfl

/-! ## End-to-end scenario with a failing transcript fetch (spec §8 C)

Three candidate items against an empty tracker; the transcript fetch for
`r2` throws a permanent 404.  Because `downloadRecording` catches
transcript errors, all three items succeed, the sync timestamp advances,
and `r2` is stored with `hasTranscript = false`, which keeps
`needsDownload` true for it on the next incremental pass. -/

def c2mk (i ra ua : String) : PlaudRecording :=
  { defaultRec with
      id := i, recordedAt := ra, updatedAt := ua, duration := 60,
      hasTranscript := true, title := some ("rec " ++ i) }

def c2rec1 : PlaudRecording :=
  c2mk "r1" "2024-03-01T10:00:00Z" "2024-03-01T11:00:00Z"

def c2rec2 : PlaudRecording :=
  c2mk "r2" "2024-03-01T12:00:00Z" "2024-03-01T13:00:00Z"

def c2rec3 : PlaudRecording :=
  c2mk "r3" "2024-03-01T14:00:00Z" "2024-03-01T15:00:00Z"

def c2client : ClientModel :=
  ⟨true, [c2rec1, c2rec2, c2rec3],
   fun i => if i = "r2" then .error (.api "Transcript not found" 404) else .ok (),
   fun _ => .ok none, false⟩

def c2store : StoreModel :=
  ⟨fun _ => .ok (), fun _ => .ok (), fun _ => .ok (), fun _ => false,
   fun _ => .ok ()⟩

def c2run : Except PErr (Option EngineResult) :=
  engineRun c2client c2store ⟨none, none, []⟩ .sync none 3 false false
    (fun _ => 0) "2024-03-03T00:00:00Z" 9

def c2final : SyncState :=
  match c2run with
  | .ok (some r) => r.tracker
  | _ => ⟨none, none, []⟩

set_option maxRecDepth 100000 in
/-- C2 as stated is false on the code: the permanent transcript error is
caught inside `downloadRecording`, so the run reports succeeded = 3 and
failed = 0, not succeeded = 2 and failed = 1. -/
theorem syncRun_transcript_error_cex :
    c2run.map (Option.map (fun r => (r.succeeded, r.failed))) = .ok (some (3, 0)) := by
  decide

set_option maxRecDepth 1000000 in
/-- C2 amended: in the three-item run whose `r2` transcript fetch throws a
permanent error, the run completes with succeeded = 3 and failed = 0, the
sync timestamp advances, and `r2` is persisted with `hasTranscript =
false`, so `needsDownload` returns true for `r2` (and false for the
unaffected `r1`) on the next run. -/
theorem syncRun_transcript_error_amended :
    c2run.map (Option.map (fun r => (r.attempted, r.succeeded, r.failed))) =
        .ok (some (3, 3, 0)) ∧
      c2final.lastSuccessfulSyncAt = some "2024-03-03T00:00:00Z" ∧
      (lookupRec c2final "r2").map (fun s => s.hasTranscript) = some false ∧
      needsDownload c2final c2rec2 = true ∧
      needsDownload c2final c2rec1 = false := by
  refine ⟨by decide, by decide, by decide, by decide, by decide⟩

end Plaud
